import Mathlib

/-!
Verification development for the multi-tenant PDF ingestion service
(`github.com/bacancy/droadmap`).

The Go sources are shallowly embedded: the two stores (PostgreSQL tenant
registry, per-tenant MongoDB document stores) become explicit state,
fallible operations return `Except`, and external effects that can fail
(MongoDB provisioning, object storage, the Gemini API call, multipart
file I/O) are driven by explicit oracles.  Go byte strings are modelled
as Lean `String`s; where Go indexes bytes (`len`, slicing) the model
indexes characters, which coincides on ASCII text, except in
`ValidateTenantName` where Go's `len` is modelled exactly as the UTF-8
byte size.  Timestamps are logical `Nat` clocks passed to the operations
that stamp rows.
-/

namespace Droadmap

/-- Embeds `models.Tenant` (internal/models/tenant.go): one row of the master
registry table created by `InitSchema` (internal/repository/postgres.go). -/
structure Tenant where
  id : Nat
  tenantName : String
  dbHost : String
  dbPort : Int
  dbName : String
  status : String
  isDeleted : Bool
  deletedAt : Option Nat
  createdAt : Nat
  updatedAt : Nat
deriving Repr, DecidableEq

/-- Embeds `models.Document` (internal/models/document.go): one document record in a
tenant's MongoDB `documents` collection.  MongoDB ObjectIDs become `Nat`. -/
structure Document where
  id : Nat
  tenantName : String
  fileName : String
  fileSize : Int
  storagePath : String
  storageURL : String
  extractedText : String
  summary : String
  uploadedAt : Nat
  isDeleted : Bool
  deletedAt : Option Nat
deriving Repr, DecidableEq

/-- The combined persistent state: the registry rows of the `tenants` table
(in insertion order, `nextTenantId` modelling the `SERIAL` column) and the
MongoDB databases as an association list from database name to the
`documents` collection (`nextDocId` modelling ObjectID generation). -/
structure SysState where
  registry : List Tenant
  stores : List (String × List Document)
  nextTenantId : Nat
  nextDocId : Nat
deriving Repr, DecidableEq

/-- Computes `fmt.Sprintf("tenant_%s", tenantName)` — the database name used for a
tenant throughout mongodb.go and tenant_service.go. -/
def tenantDbName (tenantName : String) : String := "tenant_" ++ tenantName

/-- Replace the collection stored under `dbName` (no-op on other keys). -/
def setStore (stores : List (String × List Document)) (dbName : String)
    (docs : List Document) : List (String × List Document) :=
  stores.map (fun p => if p.1 = dbName then (p.1, docs) else p)

/-- Look up the collection of a tenant database. -/
def findStore (stores : List (String × List Document)) (dbName : String) :
    Option (String × List Document) :=
  stores.find? (fun p => p.1 = dbName)

namespace MongoRepository

/-- Embeds `MongoRepository.CreateTenantDatabase` (internal/repository/mongodb.go
lines 39-67): creates the `documents` collection of database
`tenant_<name>`; a pre-existing collection is tolerated ("Collection might
already exist, which is okay"), so provisioning is idempotent on the state. -/
def CreateTenantDatabase (st : SysState) (tenantName : String) : SysState :=
  let dbName := tenantDbName tenantName
  match findStore st.stores dbName with
  | some _ => st
  | none => { st with stores := st.stores ++ [(dbName, [])] }

/-- The `$set` update applied by `SoftDeleteAllDocuments` to each document
matched by the filter `is_deleted ≠ true`. -/
def softDeleteDoc (now : Nat) (d : Document) : Document :=
  if d.isDeleted then d else { d with isDeleted := true, deletedAt := some now }

/-- Embeds `MongoRepository.SoftDeleteAllDocuments` (mongodb.go lines 112-131):
`UpdateMany` with filter `is_deleted ≠ true` setting `is_deleted = true` and
`deleted_at = now`; returns the modified count.  On a nonexistent database
MongoDB matches nothing and reports zero. -/
def SoftDeleteAllDocuments (st : SysState) (tenantName : String) (now : Nat) :
    SysState × Nat :=
  let dbName := tenantDbName tenantName
  match findStore st.stores dbName with
  | none => (st, 0)
  | some (_, docs) =>
    ({ st with stores := setStore st.stores dbName (docs.map (softDeleteDoc now)) },
     (docs.filter (fun d => !d.isDeleted)).length)

/-- The update applied by `RestoreAllDocuments` to each document matched by
the filter `is_deleted = true`: `$set is_deleted = false`, `$unset deleted_at`. -/
def restoreDoc (d : Document) : Document :=
  if d.isDeleted then { d with isDeleted := false, deletedAt := none } else d

/-- Embeds `MongoRepository.RestoreAllDocuments` (mongodb.go lines 134-155):
`UpdateMany` with filter `is_deleted = true` clearing the deletion marks;
returns the modified count. -/
def RestoreAllDocuments (st : SysState) (tenantName : String) :
    SysState × Nat :=
  let dbName := tenantDbName tenantName
  match findStore st.stores dbName with
  | none => (st, 0)
  | some (_, docs) =>
    ({ st with stores := setStore st.stores dbName (docs.map restoreDoc) },
     (docs.filter (fun d => d.isDeleted)).length)

/-- Embeds `MongoRepository.InsertDocument` (mongodb.go lines 70-81): `InsertOne`
into `tenant_<name>.documents` (MongoDB creates the database on first write)
and the generated ObjectID is written back into the document. -/
def InsertDocument (st : SysState) (tenantName : String) (doc : Document) :
    SysState × Document :=
  let dbName := tenantDbName tenantName
  let doc := { doc with id := st.nextDocId }
  let stores :=
    match findStore st.stores dbName with
    | none => st.stores ++ [(dbName, [doc])]
    | some (_, docs) => setStore st.stores dbName (docs ++ [doc])
  ({ st with stores := stores, nextDocId := st.nextDocId + 1 }, doc)

end MongoRepository

namespace PostgresRepository

/-- Embeds `PostgresRepository.GetTenantByName` (internal/repository/postgres.go
lines 54-81): `SELECT ... WHERE tenant_name = $1 AND is_deleted = FALSE`;
`pgx.ErrNoRows` is modelled as `none`. -/
def GetTenantByName (st : SysState) (tenantName : String) : Option Tenant :=
  st.registry.find? (fun t => t.tenantName = tenantName && !t.isDeleted)

/-- Embeds `PostgresRepository.CreateTenant` (postgres.go lines 83-98): `INSERT`
returning the generated id and timestamps; the `UNIQUE` constraint on
`tenant_name` (postgres.go line 36) rejects the insert when any row —
soft-deleted or not — already carries the name.  Columns not named in the
insert take their schema defaults (`is_deleted FALSE`, `deleted_at NULL`). -/
def CreateTenant (st : SysState) (t : Tenant) (now : Nat) :
    SysState × Except String Tenant :=
  if st.registry.any (fun r => r.tenantName = t.tenantName) then
    (st, .error "duplicate key value violates unique constraint")
  else
    let row := { t with
      id := st.nextTenantId
      isDeleted := false
      deletedAt := none
      createdAt := now
      updatedAt := now }
    ({ st with
      registry := st.registry ++ [row]
      nextTenantId := st.nextTenantId + 1 }, .ok row)

/-- Embeds `PostgresRepository.DeleteTenant` (postgres.go lines 100-118): `UPDATE`
setting `is_deleted = TRUE, deleted_at = NOW(), status = 'deleted'` on rows
with `tenant_name = $1 AND is_deleted = FALSE`; zero affected rows is the
error "tenant not found or already deleted". -/
def DeleteTenant (st : SysState) (tenantName : String) (now : Nat) :
    SysState × Except String Unit :=
  if (st.registry.filter (fun t => t.tenantName = tenantName && !t.isDeleted)).isEmpty then
    (st, .error "tenant not found or already deleted")
  else
    ({ st with registry := st.registry.map (fun t =>
        if t.tenantName = tenantName && !t.isDeleted then
          { t with isDeleted := true, deletedAt := some now, status := "deleted" }
        else t) }, .ok ())

/-- Embeds `PostgresRepository.RestoreTenant` (postgres.go lines 120-138): `UPDATE`
setting `is_deleted = FALSE, deleted_at = NULL, status = 'active'` on rows
with `tenant_name = $1 AND is_deleted = TRUE`; zero affected rows is the
error "tenant not found or not deleted". -/
def RestoreTenant (st : SysState) (tenantName : String) :
    SysState × Except String Unit :=
  if (st.registry.filter (fun t => t.tenantName = tenantName && t.isDeleted)).isEmpty then
    (st, .error "tenant not found or not deleted")
  else
    ({ st with registry := st.registry.map (fun t =>
        if t.tenantName = tenantName && t.isDeleted then
          { t with isDeleted := false, deletedAt := none, status := "active" }
        else t) }, .ok ())

end PostgresRepository

/-- The character class allowed by `TenantService.ValidateTenantName`
(internal/services/tenant_service.go lines 86-90): ASCII letters, digits
and underscore. -/
def validTenantChar (c : Char) : Bool :=
  ('a' ≤ c && c ≤ 'z') || ('A' ≤ c && c ≤ 'Z') || ('0' ≤ c && c ≤ '9') || c = '_'

namespace TenantService

/-- Embeds `TenantService.ValidateTenantName` (tenant_service.go lines 72-93).
Go's `len` is the UTF-8 byte length, modelled exactly by `utf8ByteSize`;
the `range` loop inspects the characters. -/
def ValidateTenantName (tenantName : String) : Except String Unit :=
  if tenantName = "" then .error "tenant name is required"
  else if tenantName.utf8ByteSize < 3 then
    .error "tenant name must be at least 3 characters"
  else if tenantName.utf8ByteSize > 50 then
    .error "tenant name must be less than 50 characters"
  else if tenantName.data.all validTenantChar then .ok ()
  else .error "tenant name can only contain letters, numbers, and underscores"

/-- Embeds `TenantService.GetOrCreateTenant` (tenant_service.go lines 31-69):
registry lookup (excluding soft-deleted rows); on `ErrNoRows` the MongoDB
database is provisioned first (`mongoOk` is the oracle for that external
call failing), then the registry row is inserted with `status = "active"`.
Failure of either step aborts with an error. -/
def GetOrCreateTenant (st : SysState) (mongoHost : String) (tenantName : String)
    (mongoOk : Bool) (now : Nat) : SysState × Except String Tenant :=
  match PostgresRepository.GetTenantByName st tenantName with
  | some tenant => (st, .ok tenant)
  | none =>
    if !mongoOk then (st, .error "unable to create tenant database")
    else
      let st := MongoRepository.CreateTenantDatabase st tenantName
      let t : Tenant := {
        id := 0
        tenantName := tenantName
        dbHost := mongoHost
        dbPort := 27017
        dbName := tenantDbName tenantName
        status := "active"
        isDeleted := false
        deletedAt := none
        createdAt := 0
        updatedAt := 0 }
      let r := PostgresRepository.CreateTenant st t now
      match r.2 with
      | .ok row => (r.1, .ok row)
      | .error e => (r.1, .error ("unable to save tenant metadata: " ++ e))

/-- The `stats` map built by `TenantService.DeleteTenant` (its
`soft_deleted` and `documents_marked_deleted` keys). -/
structure DeleteStats where
  softDeleted : Bool
  documentsMarkedDeleted : Nat
deriving Repr, DecidableEq

/-- Embeds `TenantService.DeleteTenant` (tenant_service.go lines 96-132): confirm
the tenant is visible in the registry (else the not-found error), then
soft-delete all MongoDB documents recording the count, then soft-delete the
registry row; the stats map is returned in every branch. -/
def DeleteTenant (st : SysState) (tenantName : String) (now : Nat) :
    SysState × DeleteStats × Except String Unit :=
  let stats : DeleteStats := { softDeleted := false, documentsMarkedDeleted := 0 }
  match PostgresRepository.GetTenantByName st tenantName with
  | none => (st, stats, .error ("tenant '" ++ tenantName ++ "' not found"))
  | some _ =>
    let r1 := MongoRepository.SoftDeleteAllDocuments st tenantName now
    let stats := { stats with documentsMarkedDeleted := r1.2 }
    let r2 := PostgresRepository.DeleteTenant r1.1 tenantName now
    match r2.2 with
    | .error e => (r2.1, stats, .error ("failed to soft delete tenant: " ++ e))
    | .ok _ => (r2.1, { stats with softDeleted := true }, .ok ())

/-- Embeds `TenantService.RestoreTenant` (tenant_service.go lines 135-154): flip the
registry row back to active first (errors propagate, leaving documents
untouched), then restore all MongoDB documents, returning the count. -/
def RestoreTenant (st : SysState) (tenantName : String) :
    SysState × Except String Nat :=
  let r1 := PostgresRepository.RestoreTenant st tenantName
  match r1.2 with
  | .error e => (r1.1, .error ("failed to restore tenant: " ++ e))
  | .ok _ =>
    let r2 := MongoRepository.RestoreAllDocuments r1.1 tenantName
    (r2.1, .ok r2.2)

end TenantService

/-- Embeds `strings.TrimSpace` on a character list: drop whitespace from both
ends. -/
def trimSpace (l : List Char) : List Char :=
  ((l.dropWhile Char.isWhitespace).reverse.dropWhile Char.isWhitespace).reverse

/-- The part of `*multipart.FileHeader` the handlers consult. -/
structure FileHeader where
  filename : String
  size : Int
deriving Repr, DecidableEq

/-- Oracle for the file-system and PDF-library effects inside
`PDFService.ExtractText` (internal/services/pdf_service.go): whether
`file.Open`, `os.CreateTemp` and `io.Copy` fail, whether `pdf.Open` fails
(encrypted / corrupted / unsupported PDF), and the per-page extraction
results (`none` for a null page or a page whose `GetPlainText` fails). -/
structure ExtractEnv where
  openFails : Bool
  tempFails : Bool
  copyFails : Bool
  pdfOpenFails : Bool
  pages : List (Option String)
deriving Repr, DecidableEq

namespace PDFService

/-- Embeds `PDFService.ExtractText` (pdf_service.go lines 22-83): failures of
`file.Open` / `os.CreateTemp` / `io.Copy` return errors; a `pdf.Open`
failure returns a placeholder string instead; otherwise page texts are
concatenated (skipping failing pages) with a newline after each, trimmed,
and an empty result is replaced by a second placeholder. -/
def ExtractText (file : FileHeader) (env : ExtractEnv) : Except String String :=
  if env.openFails then .error "unable to open file"
  else if env.tempFails then .error "unable to create temp file"
  else if env.copyFails then .error "unable to copy file"
  else if env.pdfOpenFails then
    .ok ("PDF file: " ++ file.filename ++
      " (Text extraction not available - PDF may be scanned, encrypted, or in unsupported format)")
  else
    let text := (env.pages.filterMap id).foldl (fun acc t => acc ++ t ++ "\n") ""
    let extractedText := String.mk (trimSpace text.data)
    if extractedText = "" then
      .ok ("PDF file: " ++ file.filename ++
        " (No text content found - PDF may be image-based or scanned)")
    else .ok extractedText

/-- Embeds `PDFService.ValidatePDF` (pdf_service.go lines 86-106): `.pdf` extension
(case-insensitive), size at most 50MB and nonzero.  The `nil` check is
handled by the caller passing an `Option FileHeader`. -/
def ValidatePDF (file : FileHeader) : Except String Unit :=
  if !((".pdf".data).isSuffixOf (file.filename.data.map Char.toLower)) then
    .error "file must be a PDF"
  else if file.size > 50 * 1024 * 1024 then .error "file size must be less than 50MB"
  else if file.size = 0 then .error "file is empty"
  else .ok ()

end PDFService

/-- Embeds `strings.LastIndex(s, ".")` on the character list of a string: the index
of the last `'.'`, or `-1` when there is none. -/
def lastIndexOfDot : List Char → Int
  | [] => -1
  | c :: rest =>
    let r := lastIndexOfDot rest
    if r ≥ 0 then r + 1 else if c = '.' then 0 else -1

namespace AIService

/-- Embeds `AIService.generateFallbackSummary` (internal/services/ai_service.go
lines 144-157): take the first 500 characters (fewer when the text is
shorter), cut after the last period when its index exceeds 100, trim
whitespace and append an ellipsis.  Go's byte indices are modelled as
character indices (identical on ASCII). -/
def generateFallbackSummary (text : String) : String :=
  let maxLen := min 500 text.data.length
  let summary := text.data.take maxLen
  let lastPeriod := lastIndexOfDot summary
  let summary := if lastPeriod > 100 then summary.take (lastPeriod.toNat + 1) else summary
  String.mk (trimSpace summary) ++ "..."

/-- Embeds `AIService.GenerateSummary` (ai_service.go lines 39-56): with no API key
the fallback is returned; otherwise the text is truncated to 30000
characters (with an appended ellipsis) and the Gemini call — whose outcome
is the oracle `api`, covering timeouts, non-200 statuses and malformed
responses — either yields the summary or is replaced by the fallback of the
truncated text.  No branch returns an error. -/
def GenerateSummary (apiKey : String) (api : Except String String)
    (text : String) : Except String String :=
  if apiKey = "" then .ok (generateFallbackSummary text)
  else
    let text := if text.data.length > 30000 then
      String.mk (text.data.take 30000) ++ "..." else text
    match api with
    | .error _ => .ok (generateFallbackSummary text)
    | .ok summary => .ok summary

end AIService

/-- The error responses of `UploadHandler.HandleUpload`
(internal/handlers/upload_handler.go), one constructor per `c.JSON` error
branch, carrying the wrapped message. -/
inductive UploadErr
  | missingFile
  | invalidTenantName (msg : String)
  | invalidPdf (msg : String)
  | tenantFailed (msg : String)
  | extractFailed (msg : String)
  | storeFileFailed (msg : String)
  | storeDocFailed (msg : String)
deriving Repr, DecidableEq

/-- The HTTP status each error branch of `HandleUpload` responds with. -/
def UploadErr.httpStatus : UploadErr → Nat
  | .missingFile => 400
  | .invalidTenantName _ => 400
  | .invalidPdf _ => 400
  | .tenantFailed _ => 500
  | .extractFailed _ => 500
  | .storeFileFailed _ => 500
  | .storeDocFailed _ => 500

/-- The `data` object of the 200 response of `HandleUpload`. -/
structure UploadSuccess where
  documentId : Nat
  tenantName : String
  fileName : String
  fileSize : Int
  summary : String
  storageURL : String
deriving Repr, DecidableEq

/-- Oracles for the external effects of one upload request: the extraction
environment, MongoDB provisioning, the MinIO upload (yielding path and URL),
the Gemini call, and the MongoDB document insert. -/
structure UploadEnv where
  extract : ExtractEnv
  mongoOk : Bool
  storage : Except String (String × String)
  api : Except String String
  insertOk : Bool
deriving Repr

namespace UploadHandler

/-- Embeds `UploadHandler.HandleUpload` (upload_handler.go lines 42-165): the
strictly sequential pipeline — missing file, tenant-name validation, PDF
validation, get-or-create tenant, text extraction, object storage, summary
generation (an error there is replaced by a fixed message, not a failure),
document insert, success response. -/
def HandleUpload (st : SysState) (apiKey mongoHost : String)
    (tenantName : String) (file : Option FileHeader) (env : UploadEnv)
    (now : Nat) : SysState × Except UploadErr UploadSuccess :=
  match file with
  | none => (st, .error .missingFile)
  | some file =>
    match TenantService.ValidateTenantName tenantName with
    | .error e => (st, .error (.invalidTenantName e))
    | .ok _ =>
      match PDFService.ValidatePDF file with
      | .error e => (st, .error (.invalidPdf e))
      | .ok _ =>
        let g := TenantService.GetOrCreateTenant st mongoHost tenantName env.mongoOk now
        match g.2 with
        | .error e => (g.1, .error (.tenantFailed e))
        | .ok _tenant =>
          match PDFService.ExtractText file env.extract with
          | .error e => (g.1, .error (.extractFailed e))
          | .ok extractedText =>
            match env.storage with
            | .error e => (g.1, .error (.storeFileFailed e))
            | .ok (storagePath, storageURL) =>
              let summary :=
                match AIService.GenerateSummary apiKey env.api extractedText with
                | .error _ => "Summary generation failed. Please check AI service configuration."
                | .ok s => s
              if !env.insertOk then (g.1, .error (.storeDocFailed "unable to insert document"))
              else
                let doc : Document := {
                  id := 0
                  tenantName := tenantName
                  fileName := file.filename
                  fileSize := file.size
                  storagePath := storagePath
                  storageURL := storageURL
                  extractedText := extractedText
                  summary := summary
                  uploadedAt := now
                  isDeleted := false
                  deletedAt := none }
                let r := MongoRepository.InsertDocument g.1 tenantName doc
                (r.1, .ok {
                  documentId := r.2.id
                  tenantName := tenantName
                  fileName := file.filename
                  fileSize := file.size
                  summary := summary
                  storageURL := storageURL })

end UploadHandler

/-- The non-deleted documents currently visible in a tenant's store. -/
def nonDeletedDocs (st : SysState) (tenantName : String) : List Document :=
  match findStore st.stores (tenantDbName tenantName) with
  | none => []
  | some (_, docs) => docs.filter (fun d => !d.isDeleted)

/-- Registry-row invariant of the data model: `is_deleted == (status ==
deleted)` and `deleted_at` non-null iff `is_deleted`. -/
def TenantInv (t : Tenant) : Prop :=
  (t.isDeleted = true ↔ t.status = "deleted") ∧ (t.deletedAt ≠ none ↔ t.isDeleted = true)

/-- Document invariant of the data model: `deleted_at` non-null iff
`is_deleted`. -/
def DocInv (d : Document) : Prop :=
  d.deletedAt ≠ none ↔ d.isDeleted = true

/-- Both invariants over the whole state. -/
def SysInv (st : SysState) : Prop :=
  (∀ t ∈ st.registry, TenantInv t) ∧ ∀ p ∈ st.stores, ∀ d ∈ p.2, DocInv d

instance (t : Tenant) : Decidable (TenantInv t) := by
  unfold TenantInv; infer_instance

instance (d : Document) : Decidable (DocInv d) := by
  unfold DocInv; infer_instance

instance (st : SysState) : Decidable (SysInv st) := by
  unfold SysInv; infer_instance

/-! ### Concrete sample values used to instantiate the theorems -/

/-- A sample active registry row for tenant `acme`. -/
def acmeRow : Tenant where
  id := 1
  tenantName := "acme"
  dbHost := "mongo"
  dbPort := 27017
  dbName := "tenant_acme"
  status := "active"
  isDeleted := false
  deletedAt := none
  createdAt := 0
  updatedAt := 0

/-- A sample non-deleted document of tenant `acme`. -/
def acmeDoc : Document where
  id := 7
  tenantName := "acme"
  fileName := "a.pdf"
  fileSize := 10
  storagePath := "acme/2025/10/11/x.pdf"
  storageURL := "http://minio/pdfs/acme/2025/10/11/x.pdf"
  extractedText := "Intro. Body."
  summary := "Intro."
  uploadedAt := 0
  isDeleted := false
  deletedAt := none

/-- A sample document of tenant `acme` that is already soft-deleted. -/
def acmeDocDeleted : Document :=
  { acmeDoc with id := 8, isDeleted := true, deletedAt := some 5 }

/-- A sample state: tenant `acme` active, its store holding one live
document. -/
def acmeState : SysState where
  registry := [acmeRow]
  stores := [("tenant_acme", [acmeDoc])]
  nextTenantId := 2
  nextDocId := 9

/-- A sample state whose `acme` store also holds an already-deleted
document. -/
def acmeMixedState : SysState where
  registry := [acmeRow]
  stores := [("tenant_acme", [acmeDoc, acmeDocDeleted])]
  nextTenantId := 2
  nextDocId := 9

/-- A sample uploaded file. -/
def samplePdf : FileHeader where
  filename := "sample.pdf"
  size := 10240

/-- A benign upload environment: every external effect succeeds. -/
def benignEnv : UploadEnv where
  extract := {
    openFails := false
    tempFails := false
    copyFails := false
    pdfOpenFails := false
    pages := [some "Intro. Body."] }
  mongoOk := true
  storage := .ok ("acme/2025/10/11/x.pdf", "http://minio/pdfs/acme/2025/10/11/x.pdf")
  api := .ok "A document."
  insertOk := true

/-! ### C8 — tenant-name validation -/

/-- C8: `ValidateTenantName` fails exactly when the name is empty, its
(byte) length lies outside `[3, 50]`, or it contains a character outside
`[A-Za-z0-9_]`; it is a pure predicate, and when it rejects the name,
`HandleUpload` answers with the validation error and leaves the state
untouched — no store mutation occurs. -/
theorem validateTenantName_spec :
    (∀ s : String,
      TenantService.ValidateTenantName s ≠ .ok () ↔
        (s = "" ∨ s.utf8ByteSize < 3 ∨ 50 < s.utf8ByteSize ∨
          ∃ c ∈ s.data, validTenantChar c = false)) ∧
    (∀ st apiKey mongoHost tenantName file env now,
      TenantService.ValidateTenantName tenantName ≠ .ok () →
      ∃ msg, UploadHandler.HandleUpload st apiKey mongoHost tenantName (some file) env now
        = (st, .error (.invalidTenantName msg))) := by
  constructor
  · intro s
    unfold TenantService.ValidateTenantName
    split_ifs with h0 h1 h2 h3
    · simp [h0]
    · simp [h1]
    · simp [h2]
    · constructor
      · intro h; exact absurd rfl h
      · rintro (h | h | h | ⟨c, hc, hv⟩)
        · exact absurd h h0
        · exact absurd h h1
        · exact absurd h h2
        · rw [List.all_eq_true.mp h3 c hc] at hv; cases hv
    · constructor
      · intro _
        refine Or.inr (Or.inr (Or.inr ?_))
        rw [List.all_eq_true] at h3
        push_neg at h3
        obtain ⟨c, hc, hv⟩ := h3
        exact ⟨c, hc, Bool.not_eq_true _ ▸ Bool.eq_false_iff.mpr hv⟩
      · intro _ h
        cases h
  · intro st apiKey mongoHost tenantName file env now h
    rcases hv : TenantService.ValidateTenantName tenantName with e | u
    · exact ⟨e, by simp [UploadHandler.HandleUpload, hv]⟩
    · exact absurd hv h

/-- Witness for `validateTenantName_spec` at the concrete two-character
name `"ab"` and a concrete state. -/
theorem validateTenantName_spec_witness :
    (TenantService.ValidateTenantName "ab" ≠ .ok () ↔
      ("ab" = "" ∨ ("ab" : String).utf8ByteSize < 3 ∨ 50 < ("ab" : String).utf8ByteSize ∨
        ∃ c ∈ ("ab" : String).data, validTenantChar c = false)) ∧
    ∃ msg, UploadHandler.HandleUpload acmeState "" "mongo" "ab" (some samplePdf) benignEnv 0
      = (acmeState, .error (.invalidTenantName msg)) :=
  ⟨validateTenantName_spec.1 "ab",
   validateTenantName_spec.2 acmeState "" "mongo" "ab" samplePdf benignEnv 0
     (fun h => Except.noConfusion h)⟩

/-! ### C2 — summarization fallback -/

theorem lastIndexOfDot_getElem : ∀ (l : List Char) (i : Nat),
    lastIndexOfDot l = (i : Int) → l[i]? = some '.'
  | [], i => by
    intro h
    simp only [lastIndexOfDot] at h
    omega
  | c :: rest, i => by
    intro h
    simp only [lastIndexOfDot] at h
    by_cases hr : lastIndexOfDot rest ≥ 0
    · rw [if_pos hr] at h
      obtain ⟨j, hj⟩ : ∃ j : Nat, lastIndexOfDot rest = (j : Int) :=
        ⟨(lastIndexOfDot rest).toNat, (Int.toNat_of_nonneg hr).symm⟩
      have hij : i = j + 1 := by omega
      subst hij
      simpa using lastIndexOfDot_getElem rest j hj
    · rw [if_neg hr] at h
      by_cases hc : c = '.'
      · rw [if_pos hc] at h
        have h0 : i = 0 := by omega
        subst h0
        simp [hc]
      · rw [if_neg hc] at h
        omega

theorem getLast?_take_dot (l : List Char) (i : Nat) (h : l[i]? = some '.') :
    (l.take (i + 1)).getLast? = some '.' := by
  have hi : i < l.length := by
    by_contra hlt
    rw [List.getElem?_eq_none (by omega)] at h
    cases h
  rw [List.getLast?_eq_getElem? (l.take (i + 1)), List.length_take]
  have hmin : min (i + 1) l.length = i + 1 := by omega
  rw [hmin, Nat.add_sub_cancel, List.getElem?_take, if_pos (by omega)]
  exact h

theorem generateFallbackSummary_characterization (text : String) :
    ∃ n ≤ 500, AIService.generateFallbackSummary text
        = String.mk (trimSpace (text.data.take n)) ++ "..." ∧
      (100 < lastIndexOfDot (text.data.take (min 500 text.data.length)) →
        (text.data.take n).getLast? = some '.') := by
  simp only [AIService.generateFallbackSummary]
  by_cases hp : 100 < lastIndexOfDot (text.data.take (min 500 text.data.length))
  · refine ⟨min ((lastIndexOfDot (text.data.take (min 500 text.data.length))).toNat + 1)
      (min 500 text.data.length), by omega, ?_, ?_⟩
    · rw [if_pos hp]
      have ht : (text.data.take (min 500 text.data.length)).take
          ((lastIndexOfDot (text.data.take (min 500 text.data.length))).toNat + 1)
          = text.data.take (min ((lastIndexOfDot (text.data.take
              (min 500 text.data.length))).toNat + 1) (min 500 text.data.length)) := by
        rw [List.take_take]
      rw [ht]
    · intro _
      rw [← List.take_take]
      apply getLast?_take_dot
      apply lastIndexOfDot_getElem
      rw [Int.toNat_of_nonneg (by omega)]
  · refine ⟨min 500 text.data.length, by omega, ?_, fun h => absurd h hp⟩
    rw [if_neg hp]

/-- Transfer of the fallback characterization through the 30000-character
truncation `GenerateSummary` applies before calling the API. -/
theorem generateFallbackSummary_of_truncated (text : String)
    (hlen : 30000 < text.data.length) :
    ∃ n ≤ 500, AIService.generateFallbackSummary (String.mk (text.data.take 30000) ++ "...")
        = String.mk (trimSpace (text.data.take n)) ++ "..." ∧
      (100 < lastIndexOfDot (text.data.take (min 500 text.data.length)) →
        (text.data.take n).getLast? = some '.') := by
  obtain ⟨n, hn, heq, hb⟩ :=
    generateFallbackSummary_characterization (String.mk (text.data.take 30000) ++ "...")
  have hdata : (String.mk (text.data.take 30000) ++ "...").data
      = text.data.take 30000 ++ "...".data := String.data_append ..
  have hlen30 : (text.data.take 30000).length = 30000 := by
    rw [List.length_take]; omega
  have htake : ∀ m ≤ 30000, (String.mk (text.data.take 30000) ++ "...").data.take m
      = text.data.take m := by
    intro m hm
    rw [hdata, List.take_append_of_le_length (by omega), List.take_take]
    congr 1
    omega
  have hwin : (String.mk (text.data.take 30000) ++ "...").data.take
      (min 500 (String.mk (text.data.take 30000) ++ "...").data.length)
      = text.data.take (min 500 text.data.length) := by
    have hl : (String.mk (text.data.take 30000) ++ "...").data.length = 30003 := by
      rw [hdata, List.length_append, hlen30]; rfl
    rw [hl]
    have h5 : min 500 (30003 : Nat) = 500 := by omega
    have h5' : min 500 text.data.length = 500 := by omega
    rw [h5, h5', htake 500 (by omega)]
  refine ⟨n, hn, ?_, ?_⟩
  · rw [heq, htake n (by omega)]
  · intro hdot
    rw [← htake n (by omega)]
    exact hb (by rw [hwin]; exact hdot)

/-- C2 counterexample: The extractive fallback is not a prefix of the
extracted text: for the text `"hi there"` (no API key, so summarization
degrades to the fallback) the summary is `"hi there..."`, which is longer
than the text itself, hence no prefix of it. -/
theorem generateSummary_appends_ellipsis :
    AIService.GenerateSummary "" (.error "timeout") "hi there" = .ok "hi there..." ∧
    ∀ n : Nat, "hi there...".data ≠ "hi there".data.take n := by
  constructor
  · rfl
  · intro n h
    have h1 := congrArg List.length h
    rw [List.length_take] at h1
    have h2 : ("hi there...".data).length = 11 := rfl
    have h3 : ("hi there".data).length = 8 := rfl
    rw [h2, h3] at h1
    omega

/-- C2 amended: `GenerateSummary` never returns an error, and whenever
summarization is unavailable (no API key) or the API call fails for any
reason (timeout, quota, non-200, malformed response), the result is the
deterministic extractive fallback: the whitespace-trim of a prefix of the
extracted text of at most 500 characters with an appended `"..."`, the
prefix ending at a sentence boundary whenever a period occurs past position
100 within the 500-character window. -/
theorem generateSummary_degrades_to_fallback :
    ∀ (apiKey : String) (api : Except String String) (text : String),
      (∃ s, AIService.GenerateSummary apiKey api text = .ok s) ∧
      ((apiKey = "" ∨ ∃ e, api = .error e) →
        ∃ n ≤ 500,
          AIService.GenerateSummary apiKey api text
            = .ok (String.mk (trimSpace (text.data.take n)) ++ "...") ∧
          (100 < lastIndexOfDot (text.data.take (min 500 text.data.length)) →
            (text.data.take n).getLast? = some '.')) := by
  intro apiKey api text
  constructor
  · simp only [AIService.GenerateSummary]
    by_cases hk : apiKey = ""
    · rw [if_pos hk]; exact ⟨_, rfl⟩
    · rw [if_neg hk]
      cases api with
      | error e => exact ⟨_, rfl⟩
      | ok s => exact ⟨_, rfl⟩
  · intro hfail
    simp only [AIService.GenerateSummary]
    by_cases hk : apiKey = ""
    · rw [if_pos hk]
      obtain ⟨n, hn, heq, hb⟩ := generateFallbackSummary_characterization text
      exact ⟨n, hn, by rw [heq], hb⟩
    · rw [if_neg hk]
      obtain ⟨e, he⟩ := (hfail.resolve_left hk)
      subst he
      by_cases hlen : text.data.length > 30000
      · rw [if_pos hlen]
        obtain ⟨n, hn, heq, hb⟩ := generateFallbackSummary_of_truncated text (by omega)
        exact ⟨n, hn, by rw [heq], hb⟩
      · rw [if_neg hlen]
        obtain ⟨n, hn, heq, hb⟩ := generateFallbackSummary_characterization text
        exact ⟨n, hn, by rw [heq], hb⟩

/-- Witness for `generateSummary_degrades_to_fallback` at empty API key and
the text `"hi"`. -/
theorem generateSummary_degrades_to_fallback_witness :
    (∃ s, AIService.GenerateSummary "" (.ok "x") "hi" = .ok s) ∧
    ∃ n ≤ 500, AIService.GenerateSummary "" (.ok "x") "hi"
        = .ok (String.mk (trimSpace ("hi".data.take n)) ++ "...") ∧
      (100 < lastIndexOfDot ("hi".data.take (min 500 "hi".data.length)) →
        ("hi".data.take n).getLast? = some '.') :=
  ⟨(generateSummary_degrades_to_fallback "" (.ok "x") "hi").1,
   (generateSummary_degrades_to_fallback "" (.ok "x") "hi").2 (Or.inl rfl)⟩

/-! ### C1 — text extraction never fails the request (except upload I/O) -/

/-- An upload environment in which reading the uploaded multipart file
fails (`file.Open` returns an error). -/
def ioFailEnv : UploadEnv :=
  { benignEnv with extract := { benignEnv.extract with openFails := true } }

/-- An upload environment in which `pdf.Open` fails (encrypted / corrupt /
unsupported PDF) but the upload itself is readable. -/
def pdfBrokenEnv : UploadEnv :=
  { benignEnv with extract := { benignEnv.extract with pdfOpenFails := true } }

/-- When the three file-system effects succeed, `ExtractText` always
returns `ok` with a non-empty string, whatever the PDF contents. -/
theorem extractText_io_ok (file : FileHeader) (env : ExtractEnv)
    (h1 : env.openFails = false) (h2 : env.tempFails = false)
    (h3 : env.copyFails = false) :
    ∃ s, PDFService.ExtractText file env = .ok s ∧ s ≠ "" := by
  have hne : ∀ tail : String, "PDF file: " ++ file.filename ++ tail ≠ "" := by
    intro tail h
    have hl := congrArg String.length h
    rw [String.length_append, String.length_append] at hl
    have h10 : ("PDF file: " : String).length = 10 := rfl
    have h0 : ("" : String).length = 0 := rfl
    rw [h10, h0] at hl
    omega
  unfold PDFService.ExtractText
  simp only [h1, h2, h3, Bool.false_eq_true, if_false]
  by_cases hp : env.pdfOpenFails = true
  · rw [if_pos hp]
    exact ⟨_, rfl, hne _⟩
  · rw [if_neg hp]
    split
    · exact ⟨_, rfl, hne _⟩
    next hE => exact ⟨_, rfl, hE⟩

/-- C1 counterexample: An extraction error of the "file unreadable"
kind — the multipart `file.Open` call failing — does fail the request:
`ExtractText` returns an error, `HandleUpload` answers with the
extraction-failure error response (HTTP 500) and never reaches the storage
step, contradicting "the text-extraction step never fails the request". -/
theorem extraction_open_failure_fails_request :
    PDFService.ExtractText samplePdf ioFailEnv.extract = .error "unable to open file" ∧
    UploadHandler.HandleUpload acmeState "" "mongo" "acme" (some samplePdf) ioFailEnv 0
      = (acmeState, .error (.extractFailed "unable to open file")) ∧
    (UploadErr.extractFailed "unable to open file").httpStatus = 500 :=
  ⟨rfl, rfl, rfl⟩

/-- C1 amended: For every PDF-content extraction failure —
`pdf.Open` failing on an encrypted / corrupt / unsupported file, failing
pages or no extractable text — `ExtractText` yields `ok` with a
human-readable (non-empty) string, placeholder included, and `HandleUpload`
never answers with the extraction-failure response, proceeding to the
storage step instead; only failures reading the uploaded file itself
(multipart open, temp file, copy) make `ExtractText` return an error. -/
theorem extraction_never_fails_request :
    (∀ (file : FileHeader) (env : ExtractEnv),
      env.openFails = false → env.tempFails = false → env.copyFails = false →
      env.pdfOpenFails = true →
      PDFService.ExtractText file env = .ok ("PDF file: " ++ file.filename ++
        " (Text extraction not available - PDF may be scanned, encrypted, or in unsupported format)")) ∧
    (∀ (file : FileHeader) (env : ExtractEnv),
      env.openFails = false → env.tempFails = false → env.copyFails = false →
      ∃ s, PDFService.ExtractText file env = .ok s ∧ s ≠ "") ∧
    (∀ st apiKey mongoHost tenantName file env now msg,
      env.extract.openFails = false → env.extract.tempFails = false →
      env.extract.copyFails = false →
      (UploadHandler.HandleUpload st apiKey mongoHost tenantName file env now).2
        ≠ .error (.extractFailed msg)) := by
  refine ⟨?_, ?_, ?_⟩
  · intro file env h1 h2 h3 hp
    unfold PDFService.ExtractText
    simp only [h1, h2, h3, hp, Bool.false_eq_true, if_false, if_true]
  · exact extractText_io_ok
  · intro st apiKey mongoHost tenantName file env now msg h1 h2 h3 h
    rcases file with _ | f
    · simp [UploadHandler.HandleUpload] at h
    · obtain ⟨s, hs, -⟩ := extractText_io_ok f env.extract h1 h2 h3
      unfold UploadHandler.HandleUpload at h
      simp only [hs] at h
      split at h
      · simp at h
      split at h
      · simp at h
      split at h
      · simp at h
      split at h
      · simp at h
      split at h
      · simp at h
      split at h
      · simp at h
      simp at h

/-- Witness for `extraction_never_fails_request` at the sample file and a
broken-PDF environment. -/
theorem extraction_never_fails_request_witness :
    PDFService.ExtractText samplePdf pdfBrokenEnv.extract
      = .ok ("PDF file: " ++ samplePdf.filename ++
        " (Text extraction not available - PDF may be scanned, encrypted, or in unsupported format)") ∧
    (∃ s, PDFService.ExtractText samplePdf pdfBrokenEnv.extract = .ok s ∧ s ≠ "") ∧
    (UploadHandler.HandleUpload acmeState "" "mongo" "acme" (some samplePdf) pdfBrokenEnv 0).2
      ≠ .error (.extractFailed "x") :=
  ⟨extraction_never_fails_request.1 samplePdf pdfBrokenEnv.extract rfl rfl rfl rfl,
   extraction_never_fails_request.2.1 samplePdf pdfBrokenEnv.extract rfl rfl rfl,
   extraction_never_fails_request.2.2 acmeState "" "mongo" "acme" (some samplePdf)
     pdfBrokenEnv 0 "x" rfl rfl rfl⟩

/-! ### C3 / C10 — get-or-create provisioning -/

/-- A name carried by no registry row (deleted or not) is not found by the
lookup. -/
theorem getTenantByName_none (st : SysState) (name : String)
    (h : ∀ r ∈ st.registry, r.tenantName ≠ name) :
    PostgresRepository.GetTenantByName st name = none := by
  unfold PostgresRepository.GetTenantByName
  rw [List.find?_eq_none]
  intro t ht
  simp [h t ht]

/-- C3: `GetOrCreateTenant` returns an existing visible registry row
unchanged without touching the state (idempotent fast path); when the row
is absent, the document store is provisioned strictly before the registry
insert, so a provisioning failure aborts with the registry unchanged — no
row written; and for a fresh name the successful first call appends exactly
one registry row (active, carrying the name) and exactly one document
store, after which a second call returns the identical row with the state
unchanged. -/
theorem getOrCreateTenant_contract :
    (∀ st mongoHost name mongoOk now t,
      PostgresRepository.GetTenantByName st name = some t →
      TenantService.GetOrCreateTenant st mongoHost name mongoOk now = (st, .ok t)) ∧
    (∀ st mongoHost name now,
      PostgresRepository.GetTenantByName st name = none →
      (TenantService.GetOrCreateTenant st mongoHost name false now).1.registry
          = st.registry ∧
      ∃ e, (TenantService.GetOrCreateTenant st mongoHost name false now).2 = .error e) ∧
    (∀ st mongoHost name now now' mongoOk',
      (∀ r ∈ st.registry, r.tenantName ≠ name) →
      findStore st.stores (tenantDbName name) = none →
      ∃ st' row,
        TenantService.GetOrCreateTenant st mongoHost name true now = (st', .ok row) ∧
        st'.registry = st.registry ++ [row] ∧
        st'.stores = st.stores ++ [(tenantDbName name, [])] ∧
        row.tenantName = name ∧ row.status = "active" ∧ row.isDeleted = false ∧
        TenantService.GetOrCreateTenant st' mongoHost name mongoOk' now' = (st', .ok row)) := by
  refine ⟨?_, ?_, ?_⟩
  · intro st mongoHost name mongoOk now t h
    unfold TenantService.GetOrCreateTenant
    rw [h]
  · intro st mongoHost name now h
    unfold TenantService.GetOrCreateTenant
    rw [h]
    exact ⟨rfl, _, rfl⟩
  · intro st mongoHost name now now' mongoOk' hreg hstore
    have hln : PostgresRepository.GetTenantByName st name = none :=
      getTenantByName_none st name hreg
    have hany : st.registry.any (fun r => r.tenantName = name) = false := by
      rw [List.any_eq_false]
      intro r hr
      simp [hreg r hr]
    refine ⟨{ st with
        registry := st.registry ++ [{
          id := st.nextTenantId
          tenantName := name
          dbHost := mongoHost
          dbPort := 27017
          dbName := tenantDbName name
          status := "active"
          isDeleted := false
          deletedAt := none
          createdAt := now
          updatedAt := now }]
        stores := st.stores ++ [(tenantDbName name, [])]
        nextTenantId := st.nextTenantId + 1 }, {
          id := st.nextTenantId
          tenantName := name
          dbHost := mongoHost
          dbPort := 27017
          dbName := tenantDbName name
          status := "active"
          isDeleted := false
          deletedAt := none
          createdAt := now
          updatedAt := now }, ?_, rfl, rfl, rfl, rfl, rfl, ?_⟩
    · simp only [TenantService.GetOrCreateTenant, MongoRepository.CreateTenantDatabase,
        PostgresRepository.CreateTenant, hln, hstore, hany, Bool.not_true,
        Bool.false_eq_true, if_false]
    · have hfind : PostgresRepository.GetTenantByName { st with
          registry := st.registry ++ [{
            id := st.nextTenantId
            tenantName := name
            dbHost := mongoHost
            dbPort := 27017
            dbName := tenantDbName name
            status := "active"
            isDeleted := false
            deletedAt := none
            createdAt := now
            updatedAt := now }]
          stores := st.stores ++ [(tenantDbName name, [])]
          nextTenantId := st.nextTenantId + 1 } name = some {
            id := st.nextTenantId
            tenantName := name
            dbHost := mongoHost
            dbPort := 27017
            dbName := tenantDbName name
            status := "active"
            isDeleted := false
            deletedAt := none
            createdAt := now
            updatedAt := now } := by
        have hfn : st.registry.find? (fun t => t.tenantName = name && !t.isDeleted)
            = none := hln
        unfold PostgresRepository.GetTenantByName
        simp only [List.find?_append, hfn, Option.none_or]
        simp [List.find?]
      unfold TenantService.GetOrCreateTenant
      rw [hfind]

/-- Witness for `getOrCreateTenant_contract`: the fast path at the sample
state, provisioning failure and fresh creation for the name `newco`. -/
theorem getOrCreateTenant_contract_witness :
    TenantService.GetOrCreateTenant acmeState "mongo" "acme" true 3
      = (acmeState, .ok acmeRow) ∧
    ((TenantService.GetOrCreateTenant acmeState "mongo" "newco" false 3).1.registry
        = acmeState.registry ∧
      ∃ e, (TenantService.GetOrCreateTenant acmeState "mongo" "newco" false 3).2
        = .error e) ∧
    ∃ st' row,
      TenantService.GetOrCreateTenant acmeState "mongo" "newco" true 3 = (st', .ok row) ∧
      st'.registry = acmeState.registry ++ [row] ∧
      st'.stores = acmeState.stores ++ [(tenantDbName "newco", [])] ∧
      row.tenantName = "newco" ∧ row.status = "active" ∧ row.isDeleted = false ∧
      TenantService.GetOrCreateTenant st' "mongo" "newco" false 7 = (st', .ok row) :=
  ⟨getOrCreateTenant_contract.1 acmeState "mongo" "acme" true 3 acmeRow rfl,
   getOrCreateTenant_contract.2.1 acmeState "mongo" "newco" 3 rfl,
   getOrCreateTenant_contract.2.2 acmeState "mongo" "newco" 3 7 false
     (by decide) rfl⟩

/-- C10: Uploading to (or otherwise get-or-creating) a soft-deleted
tenant name does not resurrect it: the lookup excludes soft-deleted rows,
provisioning is re-attempted (a no-op, the store already exists), the
registry insert is rejected by the uniqueness constraint on `tenant_name`,
and the whole state — the soft-deleted registry row included — is returned
unchanged together with an error. -/
theorem getOrCreateTenant_soft_deleted_blocked :
    ∀ st mongoHost name now,
      (∃ r ∈ st.registry, r.tenantName = name ∧ r.isDeleted = true) →
      (∀ r ∈ st.registry, r.tenantName = name → r.isDeleted = true) →
      (findStore st.stores (tenantDbName name)).isSome = true →
      ∃ e, TenantService.GetOrCreateTenant st mongoHost name true now
        = (st, .error e) := by
  intro st mongoHost name now hex hall hstore
  have hln : PostgresRepository.GetTenantByName st name = none := by
    unfold PostgresRepository.GetTenantByName
    rw [List.find?_eq_none]
    intro t ht
    by_cases hn : t.tenantName = name
    · simp [hall t ht hn]
    · simp [hn]
  have hany : st.registry.any (fun r => r.tenantName = name) = true := by
    rw [List.any_eq_true]
    obtain ⟨r, hr, hrn, -⟩ := hex
    exact ⟨r, hr, by simp [hrn]⟩
  have hdb : MongoRepository.CreateTenantDatabase st name = st := by
    unfold MongoRepository.CreateTenantDatabase
    rcases hs : findStore st.stores (tenantDbName name) with _ | p
    · rw [hs] at hstore; simp at hstore
    · simp only [hs]
  refine ⟨"unable to save tenant metadata: "
    ++ "duplicate key value violates unique constraint", ?_⟩
  simp only [TenantService.GetOrCreateTenant, PostgresRepository.CreateTenant,
    hln, hdb, hany, Bool.not_true, Bool.false_eq_true, if_false, if_true]

/-- Witness for `getOrCreateTenant_soft_deleted_blocked`: the sample state
with `acme` soft-deleted. -/
theorem getOrCreateTenant_soft_deleted_blocked_witness :
    ∃ e, TenantService.GetOrCreateTenant
        (TenantService.DeleteTenant acmeState "acme" 10).1 "mongo" "acme" true 11
      = ((TenantService.DeleteTenant acmeState "acme" 10).1, .error e) :=
  getOrCreateTenant_soft_deleted_blocked
    (TenantService.DeleteTenant acmeState "acme" 10).1 "mongo" "acme" 11
    (by decide) (by decide) (by decide)

/-! ### C4 / C5 — soft-delete and restore sequencing -/

/-- The MongoDB bulk soft-delete never touches the registry. -/
theorem softDeleteAll_fst_registry (st : SysState) (name : String) (now : Nat) :
    (MongoRepository.SoftDeleteAllDocuments st name now).1.registry = st.registry := by
  unfold MongoRepository.SoftDeleteAllDocuments
  rcases h : findStore st.stores (tenantDbName name) with _ | ⟨k, docs⟩ <;> simp only [h]

/-- The registry soft-delete never touches the document stores. -/
theorem pgDeleteTenant_fst_stores (st : SysState) (name : String) (now : Nat) :
    (PostgresRepository.DeleteTenant st name now).1.stores = st.stores := by
  unfold PostgresRepository.DeleteTenant
  split <;> rfl

/-- The registry restore never touches the document stores. -/
theorem pgRestoreTenant_fst_stores (st : SysState) (name : String) :
    (PostgresRepository.RestoreTenant st name).1.stores = st.stores := by
  unfold PostgresRepository.RestoreTenant
  split <;> rfl

/-- A list containing an element satisfying the predicate has a non-empty
filtering. -/
theorem filter_isEmpty_false_of_mem {α : Type} (l : List α) (p : α → Bool) (x : α)
    (hx : x ∈ l) (hp : p x = true) : (l.filter p).isEmpty = false := by
  have hm : x ∈ l.filter p := List.mem_filter.mpr ⟨hx, hp⟩
  rcases hf : l.filter p with _ | ⟨a, as⟩
  · rw [hf] at hm; cases hm
  · rfl

/-- The registry soft-delete on a visible row succeeds, marking exactly the
visible rows of that name. -/
theorem pgDeleteTenant_ok (st : SysState) (name : String) (now : Nat)
    (h : (st.registry.filter (fun t => t.tenantName = name && !t.isDeleted)).isEmpty
      = false) :
    PostgresRepository.DeleteTenant st name now
      = ({ st with registry := st.registry.map (fun t =>
          if t.tenantName = name && !t.isDeleted then
            { t with isDeleted := true, deletedAt := some now, status := "deleted" }
          else t) }, .ok ()) := by
  unfold PostgresRepository.DeleteTenant
  simp only [h, Bool.false_eq_true, if_false]

/-- The registry restore on a soft-deleted row succeeds, restoring exactly
the soft-deleted rows of that name. -/
theorem pgRestoreTenant_ok (st : SysState) (name : String)
    (h : (st.registry.filter (fun t => t.tenantName = name && t.isDeleted)).isEmpty
      = false) :
    PostgresRepository.RestoreTenant st name
      = ({ st with registry := st.registry.map (fun t =>
          if t.tenantName = name && t.isDeleted then
            { t with isDeleted := false, deletedAt := none, status := "active" }
          else t) }, .ok ()) := by
  unfold PostgresRepository.RestoreTenant
  simp only [h, Bool.false_eq_true, if_false]

/-- C4: `DeleteTenant` fails with the not-found error and mutates
nothing when the tenant is absent or already soft-deleted (the lookup
excludes soft-deleted rows), returning a zero count and a false
confirmation flag; otherwise it first marks every non-deleted document of
the tenant's store deleted (recording that count in the stats), and only
then soft-deletes the registry row itself, returning the count and a true
confirmation flag. -/
theorem deleteTenant_contract :
    (∀ st name now, PostgresRepository.GetTenantByName st name = none →
      ∃ e, TenantService.DeleteTenant st name now
        = (st, { softDeleted := false, documentsMarkedDeleted := 0 }, .error e)) ∧
    (∀ st name now t, PostgresRepository.GetTenantByName st name = some t →
      TenantService.DeleteTenant st name now
        = ((PostgresRepository.DeleteTenant
              (MongoRepository.SoftDeleteAllDocuments st name now).1 name now).1,
           { softDeleted := true
             documentsMarkedDeleted :=
               (MongoRepository.SoftDeleteAllDocuments st name now).2 },
           .ok ())) := by
  constructor
  · intro st name now h
    unfold TenantService.DeleteTenant
    rw [h]
    exact ⟨_, rfl⟩
  · intro st name now t h
    have ht := List.mem_of_find?_eq_some h
    have hpt := List.find?_some h
    have hfe : ((MongoRepository.SoftDeleteAllDocuments st name now).1.registry.filter
        (fun t => t.tenantName = name && !t.isDeleted)).isEmpty = false := by
      rw [softDeleteAll_fst_registry]
      exact filter_isEmpty_false_of_mem _ _ t ht hpt
    unfold TenantService.DeleteTenant
    rw [h]
    simp only [pgDeleteTenant_ok _ _ _ hfe]

/-- Witness for `deleteTenant_contract`: absence and presence at the sample
state. -/
theorem deleteTenant_contract_witness :
    (∃ e, TenantService.DeleteTenant acmeState "ghost" 10
      = (acmeState, { softDeleted := false, documentsMarkedDeleted := 0 }, .error e)) ∧
    TenantService.DeleteTenant acmeState "acme" 10
      = ((PostgresRepository.DeleteTenant
            (MongoRepository.SoftDeleteAllDocuments acmeState "acme" 10).1 "acme" 10).1,
         { softDeleted := true
           documentsMarkedDeleted :=
             (MongoRepository.SoftDeleteAllDocuments acmeState "acme" 10).2 },
         .ok ()) :=
  ⟨deleteTenant_contract.1 acmeState "ghost" 10 rfl,
   deleteTenant_contract.2 acmeState "acme" 10 acmeRow rfl⟩

/-- C5: `RestoreTenant` performs the reverse order of delete: the
registry row is flipped back to active first — when the tenant is not in
the soft-deleted state this fails with the not-found error and the state
(documents included) is returned untouched — and only then is every
deleted document of the tenant's store unmarked, with the restored count
returned. -/
theorem restoreTenant_contract :
    (∀ st name,
      (st.registry.filter (fun t => t.tenantName = name && t.isDeleted)).isEmpty = true →
      ∃ e, TenantService.RestoreTenant st name = (st, .error e)) ∧
    (∀ st name,
      (st.registry.filter (fun t => t.tenantName = name && t.isDeleted)).isEmpty = false →
      TenantService.RestoreTenant st name
        = ((MongoRepository.RestoreAllDocuments
              (PostgresRepository.RestoreTenant st name).1 name).1,
           .ok (MongoRepository.RestoreAllDocuments
              (PostgresRepository.RestoreTenant st name).1 name).2)) := by
  constructor
  · intro st name h
    unfold TenantService.RestoreTenant PostgresRepository.RestoreTenant
    simp only [h, if_true]
    exact ⟨_, rfl⟩
  · intro st name h
    unfold TenantService.RestoreTenant
    simp only [pgRestoreTenant_ok _ _ h]

/-- Witness for `restoreTenant_contract`: restoring the never-deleted
sample tenant fails and restoring it after a delete succeeds. -/
theorem restoreTenant_contract_witness :
    (∃ e, TenantService.RestoreTenant acmeState "acme" = (acmeState, .error e)) ∧
    TenantService.RestoreTenant (TenantService.DeleteTenant acmeState "acme" 10).1 "acme"
      = ((MongoRepository.RestoreAllDocuments
            (PostgresRepository.RestoreTenant
              (TenantService.DeleteTenant acmeState "acme" 10).1 "acme").1 "acme").1,
         .ok (MongoRepository.RestoreAllDocuments
            (PostgresRepository.RestoreTenant
              (TenantService.DeleteTenant acmeState "acme" 10).1 "acme").1 "acme").2) :=
  ⟨restoreTenant_contract.1 acmeState "acme" rfl,
   restoreTenant_contract.2 (TenantService.DeleteTenant acmeState "acme" 10).1 "acme" rfl⟩

/-! ### C7 — delete counts and repeated delete -/

/-- C7: On a tenant with a visible registry row and a store holding `N`
non-deleted documents, `DeleteTenant` succeeds and reports
`documents_marked_deleted = N`; calling it again immediately reports a
count of `0` and fails overall, because the tenant row itself is now
soft-deleted and the lookup no longer sees it. -/
theorem deleteTenant_count_and_second_call :
    ∀ st name now now' t ds,
      PostgresRepository.GetTenantByName st name = some t →
      findStore st.stores (tenantDbName name) = some (tenantDbName name, ds) →
      (TenantService.DeleteTenant st name now).2.1.documentsMarkedDeleted
          = (ds.filter (fun d => !d.isDeleted)).length ∧
      (TenantService.DeleteTenant st name now).2.2 = .ok () ∧
      ∃ e, TenantService.DeleteTenant ((TenantService.DeleteTenant st name now).1) name now'
        = ((TenantService.DeleteTenant st name now).1,
           { softDeleted := false, documentsMarkedDeleted := 0 }, .error e) := by
  intro st name now now' t ds h hstore
  have ht := List.mem_of_find?_eq_some h
  have hpt := List.find?_some h
  have hfe : ((MongoRepository.SoftDeleteAllDocuments st name now).1.registry.filter
      (fun x => x.tenantName = name && !x.isDeleted)).isEmpty = false := by
    rw [softDeleteAll_fst_registry]
    exact filter_isEmpty_false_of_mem _ _ t ht hpt
  have hshape : TenantService.DeleteTenant st name now
      = ((PostgresRepository.DeleteTenant
            (MongoRepository.SoftDeleteAllDocuments st name now).1 name now).1,
         { softDeleted := true
           documentsMarkedDeleted := (MongoRepository.SoftDeleteAllDocuments st name now).2 },
         .ok ()) := by
    unfold TenantService.DeleteTenant
    rw [h]
    simp only [pgDeleteTenant_ok _ _ _ hfe]
  have hcount : (MongoRepository.SoftDeleteAllDocuments st name now).2
      = (ds.filter (fun d => !d.isDeleted)).length := by
    unfold MongoRepository.SoftDeleteAllDocuments
    simp only [hstore]
  have hreg1 : (PostgresRepository.DeleteTenant
      (MongoRepository.SoftDeleteAllDocuments st name now).1 name now).1.registry
      = (MongoRepository.SoftDeleteAllDocuments st name now).1.registry.map
        (fun x => if x.tenantName = name && !x.isDeleted then
          { x with isDeleted := true, deletedAt := some now, status := "deleted" }
          else x) := by
    rw [pgDeleteTenant_ok _ _ _ hfe]
  have hln2 : PostgresRepository.GetTenantByName
      (PostgresRepository.DeleteTenant
        (MongoRepository.SoftDeleteAllDocuments st name now).1 name now).1 name
      = none := by
    unfold PostgresRepository.GetTenantByName
    rw [hreg1, List.find?_eq_none]
    intro x hx
    obtain ⟨a, ha, hfa⟩ := List.mem_map.mp hx
    by_cases hm : (a.tenantName = name && !a.isDeleted) = true
    · rw [if_pos hm] at hfa
      subst hfa
      simp
    · rw [if_neg hm] at hfa
      subst hfa
      simp only [Bool.not_eq_true] at hm
      simp [hm]
  refine ⟨by simp only [hshape, hcount], by simp only [hshape], ?_⟩
  have hnf : ∀ s2 : SysState, PostgresRepository.GetTenantByName s2 name = none →
      ∃ e, TenantService.DeleteTenant s2 name now'
        = (s2, { softDeleted := false, documentsMarkedDeleted := 0 }, .error e) := by
    intro s2 h2
    unfold TenantService.DeleteTenant
    rw [h2]
    exact ⟨_, rfl⟩
  have hst : (TenantService.DeleteTenant st name now).1
      = (PostgresRepository.DeleteTenant
          (MongoRepository.SoftDeleteAllDocuments st name now).1 name now).1 := by
    rw [hshape]
  rw [hst]
  exact hnf _ hln2

/-- Witness for `deleteTenant_count_and_second_call`: the mixed sample
state, whose store holds one live and one already-deleted document, so the
first delete reports `1`. -/
theorem deleteTenant_count_and_second_call_witness :
    (TenantService.DeleteTenant acmeMixedState "acme" 10).2.1.documentsMarkedDeleted
        = ([acmeDoc, acmeDocDeleted].filter (fun d => !d.isDeleted)).length ∧
    (TenantService.DeleteTenant acmeMixedState "acme" 10).2.2 = .ok () ∧
    ∃ e, TenantService.DeleteTenant
        ((TenantService.DeleteTenant acmeMixedState "acme" 10).1) "acme" 11
      = ((TenantService.DeleteTenant acmeMixedState "acme" 10).1,
         { softDeleted := false, documentsMarkedDeleted := 0 }, .error e) :=
  deleteTenant_count_and_second_call acmeMixedState "acme" 10 11 acmeRow
    [acmeDoc, acmeDocDeleted] rfl rfl

/-! ### C6 — delete / restore round trip -/

/-- Replacing a present store and looking it up again yields the new
collection. -/
theorem findStore_setStore : ∀ (stores : List (String × List Document)) (k : String)
    (v : List Document), (findStore stores k).isSome = true →
    findStore (setStore stores k v) k = some (k, v) := by
  intro stores k v h
  induction stores with
  | nil => simp [findStore] at h
  | cons p rest ih =>
    by_cases hp : p.1 = k
    · unfold findStore setStore
      rw [List.map_cons, if_pos hp]
      rw [List.find?_cons_of_pos _ (by simp [hp])]
      simp [hp]
    · unfold findStore at h ⊢
      unfold setStore
      rw [List.find?_cons_of_neg _ (by simp [hp])] at h
      rw [List.map_cons, if_neg hp, List.find?_cons_of_neg _ (by simp [hp])]
      exact ih h

/-- Soft-deleting a live document marks it deleted. -/
theorem softDeleteDoc_deleted (now : Nat) (d : Document) (h : d.isDeleted = false) :
    (MongoRepository.softDeleteDoc now d).isDeleted = true := by
  unfold MongoRepository.softDeleteDoc
  rw [h]
  simp

/-- Restoring a freshly soft-deleted clean document gives it back
unchanged. -/
theorem restore_softDelete_id (now : Nat) (d : Document)
    (h1 : d.isDeleted = false) (h2 : d.deletedAt = none) :
    MongoRepository.restoreDoc (MongoRepository.softDeleteDoc now d) = d := by
  cases d with
  | mk i tn fn fs sp su et sm ua del da =>
    simp only at h1 h2
    subst h1
    subst h2
    simp [MongoRepository.softDeleteDoc, MongoRepository.restoreDoc]

/-- Computation shape of the MongoDB bulk soft-delete on a present store. -/
theorem softDeleteAll_shape (st : SysState) (name : String) (now : Nat)
    (ds : List Document)
    (h : findStore st.stores (tenantDbName name) = some (tenantDbName name, ds)) :
    MongoRepository.SoftDeleteAllDocuments st name now
      = ({ st with
            stores := setStore st.stores (tenantDbName name)
              (ds.map (MongoRepository.softDeleteDoc now)) },
         (ds.filter (fun d => !d.isDeleted)).length) := by
  unfold MongoRepository.SoftDeleteAllDocuments
  simp only [h]

/-- Computation shape of the MongoDB bulk restore on a present store. -/
theorem restoreAll_shape (st : SysState) (name : String) (ds : List Document)
    (h : findStore st.stores (tenantDbName name) = some (tenantDbName name, ds)) :
    MongoRepository.RestoreAllDocuments st name
      = ({ st with
            stores := setStore st.stores (tenantDbName name)
              (ds.map MongoRepository.restoreDoc) },
         (ds.filter (fun d => d.isDeleted)).length) := by
  unfold MongoRepository.RestoreAllDocuments
  simp only [h]

/-- Success shape of the service-level delete (documents first, then the
registry row). -/
theorem deleteTenant_shape (st : SysState) (name : String) (now : Nat) (t : Tenant)
    (h : PostgresRepository.GetTenantByName st name = some t) :
    TenantService.DeleteTenant st name now
      = ((PostgresRepository.DeleteTenant
            (MongoRepository.SoftDeleteAllDocuments st name now).1 name now).1,
         { softDeleted := true
           documentsMarkedDeleted := (MongoRepository.SoftDeleteAllDocuments st name now).2 },
         .ok ()) := by
  have ht := List.mem_of_find?_eq_some h
  have hpt := List.find?_some h
  have hfe : ((MongoRepository.SoftDeleteAllDocuments st name now).1.registry.filter
      (fun x => x.tenantName = name && !x.isDeleted)).isEmpty = false := by
    rw [softDeleteAll_fst_registry]
    exact filter_isEmpty_false_of_mem _ _ t ht hpt
  unfold TenantService.DeleteTenant
  rw [h]
  simp only [pgDeleteTenant_ok _ _ _ hfe]

/-- Success shape of the service-level restore (registry row first, then
the documents). -/
theorem restoreTenant_shape (st : SysState) (name : String)
    (h : (st.registry.filter (fun x => x.tenantName = name && x.isDeleted)).isEmpty
      = false) :
    TenantService.RestoreTenant st name
      = ((MongoRepository.RestoreAllDocuments
            (PostgresRepository.RestoreTenant st name).1 name).1,
         .ok (MongoRepository.RestoreAllDocuments
            (PostgresRepository.RestoreTenant st name).1 name).2) := by
  unfold TenantService.RestoreTenant
  simp only [pgRestoreTenant_ok _ _ h]

/-- C6 counterexample: Delete-then-restore is not a round trip when a
document was already soft-deleted before the delete: on the mixed sample
state both operations succeed, but the restore also revives the document
that was deleted beforehand, so the set of non-deleted documents after the
restore differs from the set before the delete. -/
theorem delete_restore_not_round_trip :
    (TenantService.DeleteTenant acmeMixedState "acme" 10).2.2 = .ok () ∧
    (TenantService.RestoreTenant
        (TenantService.DeleteTenant acmeMixedState "acme" 10).1 "acme").2 = .ok 2 ∧
    nonDeletedDocs (TenantService.RestoreTenant
        (TenantService.DeleteTenant acmeMixedState "acme" 10).1 "acme").1 "acme"
      ≠ nonDeletedDocs acmeMixedState "acme" :=
  ⟨rfl, rfl, by decide⟩

/-- C6 amended: On a tenant whose store holds only clean, non-deleted
documents (`is_deleted = false`, `deleted_at` null), `DeleteTenant` then
`RestoreTenant` is a round trip: both operations succeed, the restore
reports every document of the store, and the set of non-deleted documents
after the restore equals the set before the delete.  (A document that was
already soft-deleted before the delete is also revived by the restore,
which is what the counterexample exploits.) -/
theorem delete_restore_round_trip :
    ∀ st name now t ds,
      PostgresRepository.GetTenantByName st name = some t →
      findStore st.stores (tenantDbName name) = some (tenantDbName name, ds) →
      (∀ d ∈ ds, d.isDeleted = false ∧ d.deletedAt = none) →
      (TenantService.DeleteTenant st name now).2.2 = .ok () ∧
      (TenantService.RestoreTenant
          (TenantService.DeleteTenant st name now).1 name).2 = .ok ds.length ∧
      nonDeletedDocs (TenantService.RestoreTenant
          (TenantService.DeleteTenant st name now).1 name).1 name
        = nonDeletedDocs st name := by
  intro st name now t ds h hstore hds
  have ht := List.mem_of_find?_eq_some h
  have hpt := List.find?_some h
  have htn : t.tenantName = name := by
    have h1 := hpt
    simp only [Bool.and_eq_true, decide_eq_true_eq] at h1
    exact h1.1
  have hdel := deleteTenant_shape st name now t h
  have hst1reg : (TenantService.DeleteTenant st name now).1.registry
      = st.registry.map (fun x => if x.tenantName = name && !x.isDeleted then
          { x with isDeleted := true, deletedAt := some now, status := "deleted" }
          else x) := by
    have hfe : ((MongoRepository.SoftDeleteAllDocuments st name now).1.registry.filter
        (fun x => x.tenantName = name && !x.isDeleted)).isEmpty = false := by
      rw [softDeleteAll_fst_registry]
      exact filter_isEmpty_false_of_mem _ _ t ht hpt
    rw [hdel, pgDeleteTenant_ok _ _ _ hfe, softDeleteAll_fst_registry]
  have hst1stores : (TenantService.DeleteTenant st name now).1.stores
      = setStore st.stores (tenantDbName name)
          (ds.map (MongoRepository.softDeleteDoc now)) := by
    rw [hdel, pgDeleteTenant_fst_stores, softDeleteAll_shape st name now ds hstore]
  have hfe2 : (((TenantService.DeleteTenant st name now).1).registry.filter
      (fun x => x.tenantName = name && x.isDeleted)).isEmpty = false := by
    rw [hst1reg]
    refine filter_isEmpty_false_of_mem _ _
      ({ t with isDeleted := true, deletedAt := some now, status := "deleted" }) ?_ ?_
    · have hmem := List.mem_map_of_mem
        (fun x => if x.tenantName = name && !x.isDeleted then
          { x with isDeleted := true, deletedAt := some now, status := "deleted" }
          else x) ht
      simpa [hpt] using hmem
    · simp [htn]
  have hres := restoreTenant_shape (TenantService.DeleteTenant st name now).1 name hfe2
  have hfs1 : findStore ((PostgresRepository.RestoreTenant
      (TenantService.DeleteTenant st name now).1 name).1).stores (tenantDbName name)
      = some (tenantDbName name, ds.map (MongoRepository.softDeleteDoc now)) := by
    rw [pgRestoreTenant_fst_stores, hst1stores]
    exact findStore_setStore st.stores (tenantDbName name) _ (by rw [hstore]; rfl)
  have hra := restoreAll_shape _ name _ hfs1
  have hmapback : (ds.map (MongoRepository.softDeleteDoc now)).map
      MongoRepository.restoreDoc = ds := by
    rw [List.map_map]
    have hcongr := List.map_congr_left (l := ds)
      (f := MongoRepository.restoreDoc ∘ MongoRepository.softDeleteDoc now) (g := id)
      (fun d hd => restore_softDelete_id now d (hds d hd).1 (hds d hd).2)
    rw [hcongr, List.map_id]
  have hfilterall : (ds.map (MongoRepository.softDeleteDoc now)).filter
      (fun d => d.isDeleted) = ds.map (MongoRepository.softDeleteDoc now) := by
    rw [List.filter_eq_self]
    intro x hx
    obtain ⟨d, hd, hfd⟩ := List.mem_map.mp hx
    rw [← hfd]
    simp [softDeleteDoc_deleted now d (hds d hd).1]
  have hcount : ((ds.map (MongoRepository.softDeleteDoc now)).filter
      (fun d => d.isDeleted)).length = ds.length := by
    rw [hfilterall, List.length_map]
  have hdsfilter : ds.filter (fun d => !d.isDeleted) = ds := by
    rw [List.filter_eq_self]
    intro x hx
    simp [(hds x hx).1]
  refine ⟨by rw [hdel], ?_, ?_⟩
  · rw [hres, hra]
    simp [hcount]
  · rw [hres, hra]
    unfold nonDeletedDocs
    simp only [hmapback]
    have hfsfinal : findStore (setStore ((PostgresRepository.RestoreTenant
        (TenantService.DeleteTenant st name now).1 name).1).stores
        (tenantDbName name) ds) (tenantDbName name) = some (tenantDbName name, ds) := by
      apply findStore_setStore
      rw [hfs1]
      rfl
    simp only [hfsfinal, hstore, hdsfilter]

/-- Witness for `delete_restore_round_trip`: the sample state whose store
holds exactly one clean document. -/
theorem delete_restore_round_trip_witness :
    (TenantService.DeleteTenant acmeState "acme" 10).2.2 = .ok () ∧
    (TenantService.RestoreTenant
        (TenantService.DeleteTenant acmeState "acme" 10).1 "acme").2
      = .ok [acmeDoc].length ∧
    nonDeletedDocs (TenantService.RestoreTenant
        (TenantService.DeleteTenant acmeState "acme" 10).1 "acme").1 "acme"
      = nonDeletedDocs acmeState "acme" :=
  delete_restore_round_trip acmeState "acme" 10 acmeRow [acmeDoc] rfl rfl (by decide)

/-! ### C9 — soft-delete invariants -/

/-- The registry-delete row update preserves the row invariant. -/
theorem tenantInv_delMap (name : String) (now : Nat) (x : Tenant) (h : TenantInv x) :
    TenantInv (if x.tenantName = name && !x.isDeleted then
      { x with isDeleted := true, deletedAt := some now, status := "deleted" }
      else x) := by
  split
  · constructor <;> simp
  · exact h

/-- The registry-restore row update preserves the row invariant. -/
theorem tenantInv_resMap (name : String) (x : Tenant) (h : TenantInv x) :
    TenantInv (if x.tenantName = name && x.isDeleted then
      { x with isDeleted := false, deletedAt := none, status := "active" }
      else x) := by
  split
  · constructor <;> simp [TenantInv]
  · exact h

/-- The document soft-delete update preserves the document invariant. -/
theorem docInv_softDelete (now : Nat) (d : Document) (h : DocInv d) :
    DocInv (MongoRepository.softDeleteDoc now d) := by
  unfold MongoRepository.softDeleteDoc
  split
  · exact h
  · constructor <;> simp

/-- The document restore update preserves the document invariant. -/
theorem docInv_restore (d : Document) (h : DocInv d) :
    DocInv (MongoRepository.restoreDoc d) := by
  unfold MongoRepository.restoreDoc
  split
  · constructor <;> simp [DocInv]
  · exact h

/-- Replacing one store with invariant-respecting documents keeps the
store-side invariant. -/
theorem storesInv_setStore (stores : List (String × List Document)) (k : String)
    (v : List Document) (hv : ∀ d ∈ v, DocInv d)
    (hs : ∀ p ∈ stores, ∀ d ∈ p.2, DocInv d) :
    ∀ p ∈ setStore stores k v, ∀ d ∈ p.2, DocInv d := by
  intro p hp
  unfold setStore at hp
  obtain ⟨q, hq, hpq⟩ := List.mem_map.mp hp
  by_cases h : q.1 = k
  · rw [if_pos h] at hpq
    subst hpq
    intro d hd
    exact hv d hd
  · rw [if_neg h] at hpq
    subst hpq
    exact hs q hq

theorem sysInv_softDeleteAll (st : SysState) (name : String) (now : Nat)
    (h : SysInv st) :
    SysInv (MongoRepository.SoftDeleteAllDocuments st name now).1 := by
  unfold MongoRepository.SoftDeleteAllDocuments
  rcases hf : findStore st.stores (tenantDbName name) with _ | ⟨k, docs⟩
  · simp only [hf]
    exact h
  · simp only [hf]
    refine ⟨h.1, ?_⟩
    apply storesInv_setStore
    · intro d hd
      obtain ⟨d0, hd0, hfd⟩ := List.mem_map.mp hd
      rw [← hfd]
      exact docInv_softDelete now d0 (h.2 _ (List.mem_of_find?_eq_some hf) d0 hd0)
    · exact h.2

theorem sysInv_restoreAll (st : SysState) (name : String) (h : SysInv st) :
    SysInv (MongoRepository.RestoreAllDocuments st name).1 := by
  unfold MongoRepository.RestoreAllDocuments
  rcases hf : findStore st.stores (tenantDbName name) with _ | ⟨k, docs⟩
  · simp only [hf]
    exact h
  · simp only [hf]
    refine ⟨h.1, ?_⟩
    apply storesInv_setStore
    · intro d hd
      obtain ⟨d0, hd0, hfd⟩ := List.mem_map.mp hd
      rw [← hfd]
      exact docInv_restore d0 (h.2 _ (List.mem_of_find?_eq_some hf) d0 hd0)
    · exact h.2

theorem sysInv_pgDelete (st : SysState) (name : String) (now : Nat) (h : SysInv st) :
    SysInv (PostgresRepository.DeleteTenant st name now).1 := by
  unfold PostgresRepository.DeleteTenant
  split
  · exact h
  · refine ⟨?_, h.2⟩
    intro x hx
    obtain ⟨a, ha, hfa⟩ := List.mem_map.mp hx
    subst hfa
    exact tenantInv_delMap name now a (h.1 a ha)

theorem sysInv_pgRestore (st : SysState) (name : String) (h : SysInv st) :
    SysInv (PostgresRepository.RestoreTenant st name).1 := by
  unfold PostgresRepository.RestoreTenant
  split
  · exact h
  · refine ⟨?_, h.2⟩
    intro x hx
    obtain ⟨a, ha, hfa⟩ := List.mem_map.mp hx
    subst hfa
    exact tenantInv_resMap name a (h.1 a ha)

theorem sysInv_createDb (st : SysState) (name : String) (h : SysInv st) :
    SysInv (MongoRepository.CreateTenantDatabase st name) := by
  unfold MongoRepository.CreateTenantDatabase
  rcases hf : findStore st.stores (tenantDbName name) with _ | p
  · simp only [hf]
    refine ⟨h.1, ?_⟩
    intro p hp
    rcases List.mem_append.mp hp with hp | hp
    · exact h.2 p hp
    · rw [List.mem_singleton.mp hp]
      intro d hd
      cases hd
  · simp only [hf]
    exact h

theorem sysInv_createTenant (st : SysState) (t : Tenant) (now : Nat) (h : SysInv st)
    (hstatus : t.status = "active") :
    SysInv (PostgresRepository.CreateTenant st t now).1 := by
  unfold PostgresRepository.CreateTenant
  split
  · exact h
  · refine ⟨?_, h.2⟩
    intro x hx
    rcases List.mem_append.mp hx with hx | hx
    · exact h.1 x hx
    · rw [List.mem_singleton.mp hx]
      simp [TenantInv, hstatus]

theorem sysInv_getOrCreate (st : SysState) (mongoHost name : String) (mongoOk : Bool)
    (now : Nat) (h : SysInv st) :
    SysInv (TenantService.GetOrCreateTenant st mongoHost name mongoOk now).1 := by
  unfold TenantService.GetOrCreateTenant
  split
  · exact h
  · split
    · exact h
    · dsimp only
      split
      · exact sysInv_createTenant _ _ _ (sysInv_createDb _ _ h) rfl
      · exact sysInv_createTenant _ _ _ (sysInv_createDb _ _ h) rfl

theorem sysInv_insertDoc (st : SysState) (name : String) (doc : Document)
    (h : SysInv st) (h1 : doc.isDeleted = false) (h2 : doc.deletedAt = none) :
    SysInv (MongoRepository.InsertDocument st name doc).1 := by
  have hnew : DocInv { doc with id := st.nextDocId } := by
    simp [DocInv, h1, h2]
  unfold MongoRepository.InsertDocument
  rcases hf : findStore st.stores (tenantDbName name) with _ | ⟨k, docs⟩
  · simp only [hf]
    refine ⟨h.1, ?_⟩
    intro p hp
    rcases List.mem_append.mp hp with hp | hp
    · exact h.2 p hp
    · rw [List.mem_singleton.mp hp]
      intro d hd
      rw [List.mem_singleton.mp hd]
      exact hnew
  · simp only [hf]
    refine ⟨h.1, ?_⟩
    apply storesInv_setStore _ _ _ ?_ h.2
    intro d hd
    rcases List.mem_append.mp hd with hd | hd
    · exact h.2 _ (List.mem_of_find?_eq_some hf) d hd
    · rw [List.mem_singleton.mp hd]
      exact hnew

theorem sysInv_deleteTenantService (st : SysState) (name : String) (now : Nat)
    (h : SysInv st) : SysInv (TenantService.DeleteTenant st name now).1 := by
  unfold TenantService.DeleteTenant
  split
  · exact h
  · dsimp only
    split
    · exact sysInv_pgDelete _ _ _ (sysInv_softDeleteAll _ _ _ h)
    · exact sysInv_pgDelete _ _ _ (sysInv_softDeleteAll _ _ _ h)

theorem sysInv_restoreTenantService (st : SysState) (name : String)
    (h : SysInv st) : SysInv (TenantService.RestoreTenant st name).1 := by
  unfold TenantService.RestoreTenant
  dsimp only
  split
  · exact sysInv_pgRestore _ _ h
  · exact sysInv_restoreAll _ _ (sysInv_pgRestore _ _ h)

/-- C9: Every service-level operation on the two stores — tenant
provisioning, soft delete, restore, and the upload pipeline with its
document insert — preserves the data-model invariants: each registry row
satisfies `is_deleted == (status == deleted)` and `deleted_at` non-null iff
`is_deleted`, and each document satisfies `deleted_at` non-null iff
`is_deleted`. -/
theorem lifecycle_preserves_invariants :
    ∀ st, SysInv st →
      (∀ mongoHost name mongoOk now,
        SysInv (TenantService.GetOrCreateTenant st mongoHost name mongoOk now).1) ∧
      (∀ name now, SysInv (TenantService.DeleteTenant st name now).1) ∧
      (∀ name, SysInv (TenantService.RestoreTenant st name).1) ∧
      (∀ apiKey mongoHost tenantName file env now,
        SysInv (UploadHandler.HandleUpload st apiKey mongoHost tenantName file env now).1) := by
  intro st h
  refine ⟨fun mongoHost name mongoOk now => sysInv_getOrCreate st mongoHost name mongoOk now h,
    fun name now => sysInv_deleteTenantService st name now h,
    fun name => sysInv_restoreTenantService st name h,
    ?_⟩
  intro apiKey mongoHost tenantName file env now
  unfold UploadHandler.HandleUpload
  rcases file with _ | f
  · exact h
  · split
    · exact h
    · split
      · exact h
      · dsimp only
        repeat' split
        all_goals
          first
          | exact sysInv_insertDoc _ _ _ (sysInv_getOrCreate _ _ _ _ _ h) rfl rfl
          | exact sysInv_getOrCreate _ _ _ _ _ h
          | exact h

/-- Witness for `lifecycle_preserves_invariants` at the sample state and a
benign upload. -/
theorem lifecycle_preserves_invariants_witness :
    (∀ mongoHost name mongoOk now,
      SysInv (TenantService.GetOrCreateTenant acmeState mongoHost name mongoOk now).1) ∧
    (∀ name now, SysInv (TenantService.DeleteTenant acmeState name now).1) ∧
    (∀ name, SysInv (TenantService.RestoreTenant acmeState name).1) ∧
    (∀ apiKey mongoHost tenantName file env now,
      SysInv (UploadHandler.HandleUpload acmeState apiKey mongoHost
        tenantName file env now).1) :=
  lifecycle_preserves_invariants acmeState (by decide)

end Droadmap
